import Mathlib

/-!
# Verification of the BINDetect scan-and-score pipeline statistics

This file gives a shallow embedding, over `ℚ`, of the statistical core of
`run_bindetect` (tobias/footprinting/BINDetect.py): the per-condition
threshold estimator, the pseudocount resolution, the per-condition-pair
differential null estimator, the round-robin assignment of TF names to
writer units, the result-table column layout, the distance-matrix gating,
and the genome-wide GC composition.

Calls into external libraries (numpy, scipy, sklearn) that the source makes
are modelled as abstract function parameters collected in a `Numerics`
structure; the theorems below are about how `run_bindetect` composes those
calls.  Machine floats are modelled as exact rationals.
-/

namespace BINDetect

/-- Result of `sklearn.mixture.GaussianMixture(...).fit` on 1-D data:
the fitted `means_` (flattened) and `covariances_` (flattened). -/
structure GMM1D where
  means : List ℚ
  covariances : List ℚ
deriving DecidableEq

/-- A fitted 2-D Gaussian mixture (`GaussianMixture(n, covariance_type="full",
random_state=1)`): kept abstract, tagged with its component count. -/
structure GMM2D where
  ncomponents : ℕ
  params : List ℚ
deriving DecidableEq

/-- Parameters `(s, loc, scale)` of a scipy log-normal distribution, in the
order `scipy.stats.lognorm` uses them. -/
structure LogParams where
  shape : ℚ
  loc : ℚ
  scale : ℚ
deriving DecidableEq

/-- The external numerical routines `run_bindetect` calls (numpy / scipy /
sklearn).  They are out of the repository; the embedding treats them as
abstract functions.
* `log`, `exp`, `sqrt`, `log2` model the numpy elementwise functions;
* `gmm1Fit n d` models `GaussianMixture(n_components=n, random_state=1).fit`
  on the 1-D data `d`, and `gmm1Bic g d` models `g.bic(d)`;
* `lognormFitLoc data s sc` models the `loc` fitted by
  `scipy.stats.lognorm.fit(data, f0=s, fscale=sc)` (shape and scale fixed);
* `lognormPpf q p` models `scipy.stats.lognorm.ppf(q, *p)`;
* `lognormMode p` models `scipy.optimize.fmin(lambda x: -lognorm.pdf(x, *p), 0)[0]`;
* `gmm2Fit n pts` models `GaussianMixture(n_components=n,
  covariance_type="full", random_state=1).fit` on 2-D points `pts`, and
  `gmm2Bic g pts` models `g.bic(pts)`. -/
structure Numerics where
  log : ℚ → ℚ
  exp : ℚ → ℚ
  sqrt : ℚ → ℚ
  log2 : ℚ → ℚ
  gmm1Fit : ℕ → List ℚ → GMM1D
  gmm1Bic : GMM1D → List ℚ → ℚ
  lognormFitLoc : List ℚ → ℚ → ℚ → ℚ
  lognormPpf : ℚ → LogParams → ℚ
  lognormMode : LogParams → ℚ
  gmm2Fit : ℕ → List (ℚ × ℚ) → GMM2D
  gmm2Bic : GMM2D → List (ℚ × ℚ) → ℚ

/-- `np.isclose(v, 0.0)` with numpy defaults: `|v - 0| ≤ atol + rtol*|0|`,
i.e. `|v| ≤ 1e-8`. -/
def iscloseZero (v : ℚ) : Bool := decide (|v| ≤ 1 / 100000000)

/-- `bg_values = bg_values[np.logical_not(np.isclose(bg_values, 0.0))]`
(BINDetect.py line 425). -/
def filterNonzero (bg : List ℚ) : List ℚ := bg.filter (fun v => !(iscloseZero v))

/-- `np.percentile(l, [99])` with numpy's default linear interpolation:
sort ascending, take position `h = 99/100 * (n-1)`, interpolate between the
neighbouring order statistics (BINDetect.py line 426). -/
def percentile99 (l : List ℚ) : ℚ :=
  let s := List.insertionSort (fun a b => a ≤ b) l
  let h : ℚ := (99 / 100) * ((l.length : ℚ) - 1)
  let i : ℕ := (⌊h⌋).toNat
  let lo := s.getD i 0
  let hi := s.getD (i + 1) lo
  lo + (h - (i : ℚ)) * (hi - lo)

/-- `np.argmax`: index of the first occurrence of the maximum. -/
def argmaxIdx (l : List ℚ) : ℕ :=
  (l.enum.foldl (fun acc p => if acc.2 < p.2 then p else acc) (0, l.headD 0)).1

/-- The BIC model-selection loop of `run_bindetect`: starting from
`lowest_bic = np.inf`, try component counts `n0 :: ns` in order and keep the
fit whose BIC is strictly lower than the best so far. -/
def selectMinBic1 {μ : Type} (f : ℕ → μ) (bic : μ → ℚ) (n0 : ℕ) (ns : List ℕ) : μ :=
  ns.foldl (fun best m => if bic (f m) < bic best then f m else best) (f n0)

/-- The mixture chosen on the log background values (BINDetect.py lines
428-439): 1- and 2-component Gaussian mixtures are fitted to
`np.log(bg_values)` and the lower BIC wins (strict improvement, so a tie
keeps the 1-component fit). -/
def chosenGMM (N : Numerics) (bgv : List ℚ) : GMM1D :=
  selectMinBic1 (fun n => N.gmm1Fit n (bgv.map N.log))
    (fun g => N.gmm1Bic g (bgv.map N.log)) 1 [2]

/-- BINDetect.py lines 441-445: from the chosen mixture take
`means = gmm.means_.flatten()`, `sds = np.sqrt(gmm.covariances_).flatten()`,
`chosen_i = np.argmax(means)`, and fit
`scipy.stats.lognorm.fit(bg_values[bg_values < x_max], f0=sds[chosen_i],
fscale=np.exp(means[chosen_i]))`; with `f0` and `fscale` fixed the fitted
parameter triple is `(sds[chosen_i], loc, np.exp(means[chosen_i]))`. -/
def fittedLogParams (N : Numerics) (bgv : List ℚ) : LogParams :=
  let g := chosenGMM N bgv
  let i := argmaxIdx g.means
  let shape := (g.covariances.map N.sqrt).getD i 0
  let scale := N.exp (g.means.getD i 0)
  { shape := shape
    loc := N.lognormFitLoc (bgv.filter (fun v => v < percentile99 bgv)) shape scale
    scale := scale }

/-- Round-half-to-even to an integer, as Python's builtin `round` does. -/
def rne (q : ℚ) : ℤ :=
  if q - ((⌊q⌋ : ℤ) : ℚ) < 1 / 2 then ⌊q⌋
  else if (1 : ℚ) / 2 < q - ((⌊q⌋ : ℤ) : ℚ) then ⌊q⌋ + 1
  else if ⌊q⌋ % 2 = 0 then ⌊q⌋ else ⌊q⌋ + 1

/-- Python `round(x, 5)`. -/
def round5 (q : ℚ) : ℚ := ((rne (q * 100000) : ℤ) : ℚ) / 100000

/-- BINDetect.py line 462:
`threshold = round(scipy.stats.lognorm.ppf(1-args.bound_threshold, *log_params), 5)`. -/
def thresholdOf (N : Numerics) (bt : ℚ) (bgv : List ℚ) : ℚ :=
  round5 (N.lognormPpf (1 - bt) (fittedLogParams N bgv))

/-- BINDetect.py lines 467-468: the mode of the fitted log-normal, halved. -/
def pseudoCandidate (N : Numerics) (bgv : List ℚ) : ℚ :=
  N.lognormMode (fittedLogParams N bgv) / 2

/-- The exception raised by `np.percentile` on an empty array, which is what
the unguarded line 426 of BINDetect.py produces when the background vector
is empty after removing near-zero values (there is no handler in
`run_bindetect`, so the run dies with this library traceback). -/
def percentileEmptyMsg : String := "IndexError: cannot do a non-empty take from an empty axes."

/-- One iteration of the per-condition loop of BINDetect.py lines 419-469:
filter near-zero background values, and either die inside `np.percentile`
(empty vector) or produce the `(threshold, pseudocount candidate)` pair. -/
def thresholdEstimate (N : Numerics) (bt : ℚ) (bg : List ℚ) : Except String (ℚ × ℚ) :=
  match filterNonzero bg with
  | [] => .error percentileEmptyMsg
  | v :: vs => .ok (thresholdOf N bt (v :: vs), pseudoCandidate N (v :: vs))

/-- The whole `for bigwig in args.cond_names:` loop (BINDetect.py lines
419-469), sequentially; the first failing condition aborts the run. -/
def thresholdPhase (N : Numerics) (bt : ℚ) (signal : String → List ℚ) :
    List String → Except String (List (ℚ × ℚ))
  | [] => .ok []
  | c :: cs =>
    match thresholdEstimate N bt (signal c) with
    | .error e => .error e
    | .ok tp =>
      match thresholdPhase N bt signal cs with
      | .error e => .error e
      | .ok rest => .ok (tp :: rest)

/-- BINDetect.py lines 499-502: `if args.pseudo == None: args.pseudo =
np.mean(pseudo)`.  `pseudo` is the scalar left over from the LAST loop
iteration (the list `pseudos` collected at line 469 is never read), and
`np.mean` of a scalar is that scalar, so the estimated pseudocount is the
last condition's candidate. -/
def codePseudo (pseudoArg : Option ℚ) (candidates : List ℚ) : ℚ :=
  pseudoArg.getD (candidates.getLastD 0)

/-- `np.mean` of a list. -/
def listMean (l : List ℚ) : ℚ := l.sum / (l.length : ℚ)

/-- Modelled from the spec: "if no pseudocount is configured, the final
pseudocount is the mean of these candidates across all conditions". -/
def specPseudo (pseudoArg : Option ℚ) (candidates : List ℚ) : ℚ :=
  pseudoArg.getD (listMean candidates)

/-! ## Differential comparison phase (BINDetect.py lines 506-542) -/

/-- Elementwise zip of the two background signal vectors with the aligned
GC-content vector (numpy arrays of equal length in the pipeline). -/
def zip3 : List ℚ → List ℚ → List ℚ → List (ℚ × ℚ × ℚ)
  | a :: as, b :: bs, g :: gs => (a, b, g) :: zip3 as bs gs
  | _, _, _ => []

/-- BINDetect.py lines 519-521: `included = np.logical_not(np.logical_and(
np.isclose(scores1, 0), np.isclose(scores2, 0)))`, applied to scores and GC
alike. -/
def keptTriples (s1 s2 gcs : List ℚ) : List (ℚ × ℚ × ℚ) :=
  (zip3 s1 s2 gcs).filter (fun t => !(iscloseZero t.1 && iscloseZero t.2.1))

/-- BINDetect.py lines 523-524:
`log2fcs = np.log2(np.true_divide(scores1 + args.pseudo, scores2 + args.pseudo))`
paired with the (already filtered) GC contents. -/
def log2fcPoints (N : Numerics) (pseudo : ℚ) (kept : List (ℚ × ℚ × ℚ)) : List (ℚ × ℚ) :=
  kept.map (fun t => (N.log2 ((t.1 + pseudo) / (t.2.1 + pseudo)), t.2.2))

/-- The 2-D points a condition pair contributes to the null-model fit. -/
def pairPoints (N : Numerics) (pseudo : ℚ) (s1 s2 gcs : List ℚ) : List (ℚ × ℚ) :=
  log2fcPoints N pseudo (keptTriples s1 s2 gcs)

/-- The component counts tried by the null-model selection loop,
`range(1,10)` (BINDetect.py line 531). -/
def componentRange : List ℕ := [1, 2, 3, 4, 5, 6, 7, 8, 9]

/-- BINDetect.py lines 529-542: fit `GaussianMixture(n, covariance_type=
"full", random_state=1)` for `n` in `range(1,10)` and keep the lowest BIC. -/
def fitPairGMM (N : Numerics) (pts : List (ℚ × ℚ)) : GMM2D :=
  selectMinBic1 (fun n => N.gmm2Fit n pts) (fun g => N.gmm2Bic g pts)
    1 [2, 3, 4, 5, 6, 7, 8, 9]

/-- The `sys.exit` message of BINDetect.py line 527, with the two condition
names interpolated. -/
def pairErrorMsg (c1 c2 : String) : String :=
  "ERROR: Bigwig values of conditions " ++ c1 ++ " and " ++ c2 ++
    " are equal or contain only zeroes - please check your input data."

/-- One iteration of the `for (bigwig1, bigwig2) in comparisons:` loop
(BINDetect.py lines 512-542): build the (log2fc, gc) points; if none remain
the run exits fatally, otherwise the BIC-selected mixture is stored. -/
def comparisonFit (N : Numerics) (pseudo : ℚ) (signal : String → List ℚ)
    (gcs : List ℚ) (c1 c2 : String) : Except String GMM2D :=
  match pairPoints N pseudo (signal c1) (signal c2) gcs with
  | [] => .error (pairErrorMsg c1 c2)
  | p :: ps => .ok (fitPairGMM N (p :: ps))

/-- The whole comparisons loop, sequentially over the condition pairs; the
first failing pair aborts the run. -/
def comparisonPhase (N : Numerics) (pseudo : ℚ) (signal : String → List ℚ)
    (gcs : List ℚ) : List (String × String) → Except String (List GMM2D)
  | [] => .ok []
  | (c1, c2) :: rest =>
    match comparisonFit N pseudo signal gcs c1 c2 with
    | .error e => .error e
    | .ok g =>
      match comparisonPhase N pseudo signal gcs rest with
      | .error e => .error e
      | .ok gs => .ok (g :: gs)

/-- `itertools.combinations(cond_names, 2)` (BINDetect.py line 173). -/
def pairCombinations : List String → List (String × String)
  | [] => []
  | a :: rest => rest.map (fun b => (a, b)) ++ pairCombinations rest

/-! ## Result-table columns, writer chunks, GC composition -/

def colTotal : String := "total_tfbs"
def colThreshold : String := "_threshold"
def colBound : String := "_bound"
def colChange : String := "_change"
def colPvalue : String := "_pvalue"
def underscore : String := "_"

/-- The `info_columns` header of BINDetect.py lines 603-605: `total_tfbs`,
then `{cond}_{threshold,bound}` per condition (itertools.product order),
then `{cond1}_{cond2}_{change,pvalue}` per comparison. -/
def infoColumns (condNames : List String) : List String :=
  [colTotal]
    ++ condNames.flatMap (fun c => [c ++ colThreshold, c ++ colBound])
    ++ (pairCombinations condNames).flatMap
        (fun pc => [pc.1 ++ underscore ++ pc.2 ++ colChange,
                    pc.1 ++ underscore ++ pc.2 ++ colPvalue])

/-- Python slicing `l[i::step]` (BINDetect.py line 341,
`motif_names_predict[i::writer_cores]`): the elements whose index `j`
satisfies `i ≤ j` and `(j - i) % step = 0`. -/
def sliceStep {α : Type} (l : List α) (i step : ℕ) : List α :=
  (l.enum.filter (fun p => decide (i ≤ p.1) && decide ((p.1 - i) % step = 0))).map Prod.snd

/-- `gc_content = np.mean(gc_content_pool)` (BINDetect.py line 238): the
unweighted mean of the per-chunk GC fractions, ignoring each chunk's base
count (the `get_gc_content` collaborator yields one fraction per chunk; the
chunk is modelled as its fraction together with the number of bases it
covers, which the code never consults). -/
def estimateGC (chunkStats : List (ℚ × ℕ)) : ℚ :=
  listMean (chunkStats.map Prod.fst)

/-- `bg = np.array([(1-gc)/2, gc/2, gc/2, (1-gc)/2])` (BINDetect.py line 240). -/
def bgComposition (gc : ℚ) : List ℚ :=
  [(1 - gc) / 2, gc / 2, gc / 2, (1 - gc) / 2]

/-! ## The post-scan pipeline -/

/-- The per-run configuration relevant to the modelled phases. -/
structure Args where
  condNames : List String
  signalsLen : ℕ
  boundThreshold : ℚ
  pseudo : Option ℚ

/-- The durable outputs of the modelled phases: per-condition thresholds,
the resolved pseudocount, the result table (one row per TF name, in
table-building order) and the optional distance matrix. -/
structure RunOutput where
  thresholds : List (String × ℚ)
  pseudo : ℚ
  table : List (String × List ℚ)
  distance : Option (List (List ℚ))
deriving DecidableEq

/-- A model of `list(set(names))` (BINDetect.py lines 276, 305): some
deduplication of `names` in an order chosen by the interpreter's
hash-randomised `set`.  Any function producing a duplicate-free list with
the same members is a possible behaviour. -/
def validSetOrder (o : List String → List String) (l : List String) : Prop :=
  (o l).Nodup ∧ (∀ x ∈ o l, x ∈ l) ∧ (∀ x ∈ l, x ∈ o l)

/-- The phases of `run_bindetect` that follow motif scanning (BINDetect.py
lines 412-675): threshold estimation per condition, pseudocount resolution,
the per-pair differential fits, the per-TF table (rows in the order of the
deduplicated TF-name list, each row produced by the `process_tfbs`
collaborator), and the distance matrix, which is computed only when more
than one signal file was given. -/
def postScan (N : Numerics) (A : Args) (signal : String → List ℚ) (gcs : List ℚ)
    (rawNames : List String) (setOrder : List String → List String)
    (perTF : String → ℚ → List ℚ) (overlaps : List (String × String × ℕ))
    (distFn : List (String × String × ℕ) → List (List ℚ)) :
    Except String RunOutput :=
  match thresholdPhase N A.boundThreshold signal A.condNames with
  | .error e => .error e
  | .ok tps =>
    let ps := codePseudo A.pseudo (tps.map Prod.snd)
    match (if 1 < A.signalsLen then
             comparisonPhase N ps signal gcs (pairCombinations A.condNames)
           else .ok []) with
    | .error e => .error e
    | .ok _ =>
      .ok { thresholds := A.condNames.zip (tps.map Prod.fst)
            pseudo := ps
            table := (setOrder rawNames).map (fun n => (n, perTF n ps))
            distance := if 1 < A.signalsLen then some (distFn overlaps) else none }

/-- The table of a run, when the run did not abort. -/
def tableOf (e : Except String RunOutput) : Option (List (String × List ℚ)) :=
  match e with
  | .ok r => some r.table
  | .error _ => none

/-- The resolved pseudocount of a run, when the run did not abort. -/
def pseudoOf (e : Except String RunOutput) : Option ℚ :=
  match e with
  | .ok r => some r.pseudo
  | .error _ => none

/-- The per-condition thresholds of a run, when the run did not abort. -/
def thresholdsOf (e : Except String RunOutput) : Option (List (String × ℚ)) :=
  match e with
  | .ok r => some r.thresholds
  | .error _ => none

/-- The distance matrix of a run (none when skipped or aborted). -/
def distOf (e : Except String RunOutput) : Option (List (List ℚ)) :=
  match e with
  | .ok r => r.distance
  | .error _ => none

/-- Two runs agree on their tables up to row order (and on the abort
message when both aborted). -/
def tablesMatch (e1 e2 : Except String RunOutput) : Prop :=
  match e1, e2 with
  | .ok a, .ok b => a.table.Perm b.table
  | .error m1, .error m2 => m1 = m2
  | _, _ => False

/-! ## Spec-side definitions (refinement targets)

These re-state, in the spec's own words, what the Threshold Estimator is
claimed to compute; the theorems below compare them with the definitions
taken from the code. -/

/-- The log-normal distribution described by the spec: "Fit a 1-component
and a 2-component Gaussian mixture to the natural log of the values; pick
the model with the lower Bayesian Information Criterion score", take the
component with the larger mean, and fit a log-normal "to the (non-log)
values below their 99th percentile, with shape and scale anchored to the
chosen component's standard deviation and mean". -/
def specFittedLognorm (N : Numerics) (bg : List ℚ) : LogParams :=
  let vals := filterNonzero bg
  let logvals := vals.map N.log
  let g1 := N.gmm1Fit 1 logvals
  let g2 := N.gmm1Fit 2 logvals
  let g := if N.gmm1Bic g2 logvals < N.gmm1Bic g1 logvals then g2 else g1
  let i := argmaxIdx g.means
  let shape := (g.covariances.map N.sqrt).getD i 0
  let scale := N.exp (g.means.getD i 0)
  { shape := shape
    loc := N.lognormFitLoc (vals.filter (fun v => v < percentile99 vals)) shape scale
    scale := scale }

/-- The threshold claimed by the spec: "Threshold = inverse cumulative
distribution function of the fitted log-normal evaluated at
`1 − bound_threshold`" (no rounding). -/
def specThresholdC1 (N : Numerics) (bt : ℚ) (bg : List ℚ) : ℚ :=
  N.lognormPpf (1 - bt) (specFittedLognorm N bg)

/-! ## Concrete instantiations used by witnesses and counterexamples

The abstract library routines are universally quantified in the theorems;
the closed statements below instantiate them with simple concrete functions
(compatible with the library functions' possible outputs) so that the
embedded pipeline can be evaluated on explicit inputs. -/

/-- A concrete `Numerics`: the elementwise functions are the identity, the
mixture fit exposes the first datum as its single mean, the inverse CDF is
the identity in its quantile argument, and the 2-D BIC is the component
count (so one component wins). -/
def cxNum : Numerics where
  log := id
  exp := id
  sqrt := id
  log2 := id
  gmm1Fit := fun _ d => { means := [d.headD 0], covariances := [1] }
  gmm1Bic := fun _ _ => 0
  lognormFitLoc := fun _ _ _ => 0
  lognormPpf := fun q _ => q
  lognormMode := fun p => p.scale
  gmm2Fit := fun n _ => { ncomponents := n, params := [] }
  gmm2Bic := fun g _ => (g.ncomponents : ℚ)

/-- Like `cxNum` but the inverse CDF returns the constant `1/3` (a value
whose 5-decimal rounding differs from itself). -/
def cxNumThird : Numerics :=
  { cxNum with lognormPpf := fun _ _ => 1 / 3 }

def condA : String := "A"
def condB : String := "B"

/-- Two conditions with background signals `[4]` and `[12]`: under `cxNum`
their threshold-estimator pseudocount candidates are `2` and `6`. -/
def sigC2 : String → List ℚ := fun c => if c = condA then [4] else [12]

def cond1 : String := "cond1"
def cond2 : String := "cond2"
def condZ : String := "condA"

/-- All-near-zero background signal for every condition. -/
def sigZero : String → List ℚ := fun _ => [0, 0]

/-- A trivial per-TF aggregator and distance function for closed runs. -/
def perTFTrivial : String → ℚ → List ℚ := fun _ _ => []

def distTrivial : List (String × String × ℕ) → List (List ℚ) := fun _ => []

/-- `list(set(·))` realised as "first occurrence order". -/
def ordFwd : List String → List String := fun l => l.dedup

/-- `list(set(·))` realised as "last occurrence order reversed" — another
legitimate set iteration order. -/
def ordRev : List String → List String := fun l => l.reverse.dedup

def nameL1 : String := "a"
def nameL2 : String := "b"

/-! ## General lemmas about the embedded operations -/

/-- The selection fold returns either the seed fit or one of the later fits. -/
theorem selectMinBic1_mem {μ : Type} (f : ℕ → μ) (bic : μ → ℚ) (n0 : ℕ) (ns : List ℕ) :
    selectMinBic1 f bic n0 ns = f n0 ∨ ∃ k ∈ ns, selectMinBic1 f bic n0 ns = f k := by
  unfold selectMinBic1
  induction ns generalizing n0 with
  | nil => exact Or.inl rfl
  | cons n t ih =>
    simp only [List.foldl_cons]
    by_cases h : bic (f n) < bic (f n0)
    · rw [if_pos h]
      rcases ih n with h1 | ⟨k, hk, h2⟩
      · exact Or.inr ⟨n, List.mem_cons_self n t, h1⟩
      · exact Or.inr ⟨k, List.mem_cons_of_mem n hk, h2⟩
    · rw [if_neg h]
      rcases ih n0 with h1 | ⟨k, hk, h2⟩
      · exact Or.inl h1
      · exact Or.inr ⟨k, List.mem_cons_of_mem n hk, h2⟩

/-- The selection fold never increases the BIC relative to the seed. -/
theorem selectMinBic1_le_seed {μ : Type} (f : ℕ → μ) (bic : μ → ℚ) (n0 : ℕ) (ns : List ℕ) :
    bic (selectMinBic1 f bic n0 ns) ≤ bic (f n0) := by
  unfold selectMinBic1
  induction ns generalizing n0 with
  | nil => exact le_refl _
  | cons n t ih =>
    simp only [List.foldl_cons]
    by_cases h : bic (f n) < bic (f n0)
    · rw [if_pos h]; exact le_trans (ih n) (le_of_lt h)
    · rw [if_neg h]; exact ih n0

/-- The selection fold's result has a BIC no larger than any tried fit. -/
theorem selectMinBic1_le {μ : Type} (f : ℕ → μ) (bic : μ → ℚ) (n0 : ℕ) (ns : List ℕ) :
    ∀ m ∈ ns, bic (selectMinBic1 f bic n0 ns) ≤ bic (f m) := by
  unfold selectMinBic1
  induction ns generalizing n0 with
  | nil => intro m hm; cases hm
  | cons n t ih =>
    intro m hm
    simp only [List.foldl_cons]
    rcases List.mem_cons.mp hm with rfl | hmt
    · by_cases h : bic (f m) < bic (f n0)
      · rw [if_pos h]
        exact selectMinBic1_le_seed f bic m t
      · rw [if_neg h]
        exact le_trans (selectMinBic1_le_seed f bic n0 t) (not_lt.mp h)
    · by_cases h : bic (f n) < bic (f n0)
      · rw [if_pos h]; exact ih n m hmt
      · rw [if_neg h]; exact ih n0 m hmt

/-- `rne` never undershoots the floor. -/
theorem floor_le_rne (q : ℚ) : ⌊q⌋ ≤ rne q := by
  unfold rne
  split_ifs <;> omega

/-- `rne` never overshoots the floor by more than one. -/
theorem rne_le_floor_add_one (q : ℚ) : rne q ≤ ⌊q⌋ + 1 := by
  unfold rne
  split_ifs <;> omega

/-- Round-half-to-even is monotone. -/
theorem rne_mono {q q' : ℚ} (h : q ≤ q') : rne q ≤ rne q' := by
  rcases lt_or_eq_of_le (Int.floor_mono h) with hf | hf
  · calc rne q ≤ ⌊q⌋ + 1 := rne_le_floor_add_one q
    _ ≤ ⌊q'⌋ := hf
    _ ≤ rne q' := floor_le_rne q'
  · unfold rne
    rw [← hf]
    have hr : q - (⌊q⌋ : ℚ) ≤ q' - (⌊q⌋ : ℚ) := by linarith
    split_ifs with h1 h2 h3 h4 h4 h5 h6 h6 h7 h8 h8 <;> try omega
    all_goals linarith

/-- Python `round(·, 5)` is monotone. -/
theorem round5_mono {q q' : ℚ} (h : q ≤ q') : round5 q ≤ round5 q' := by
  unfold round5
  have h1 : q * 100000 ≤ q' * 100000 := by nlinarith
  have h2 : rne (q * 100000) ≤ rne (q' * 100000) := rne_mono h1
  have h3 : ((rne (q * 100000) : ℤ) : ℚ) ≤ ((rne (q' * 100000) : ℤ) : ℚ) := by
    exact_mod_cast h2
  linarith

/-- The spec's description of the fitted log-normal coincides with the
code's: the strict-improvement BIC loop over component counts 1 and 2 is
exactly "pick the lower BIC, ties to 1 component". -/
theorem specFittedLognorm_eq (N : Numerics) (bg : List ℚ) :
    specFittedLognorm N bg = fittedLogParams N (filterNonzero bg) := rfl

/-- If a pair keeps no positions, every signal value of the first condition
is near zero (given the aligned vectors are long enough to cover it), so
its filtered background vector is empty. -/
theorem filterNonzero_eq_nil_of_kept_nil :
    ∀ (s1 s2 gcs : List ℚ), s1.length ≤ s2.length → s1.length ≤ gcs.length →
      keptTriples s1 s2 gcs = [] → filterNonzero s1 = [] := by
  intro s1
  induction s1 with
  | nil => intro s2 gcs _ _ _; rfl
  | cons a as ih =>
    intro s2 gcs h2 hg hk
    match s2, gcs with
    | [], _ => simp at h2
    | _ :: _, [] => simp at hg
    | b :: bs, g :: gs =>
      have hzip : zip3 (a :: as) (b :: bs) (g :: gs) = (a, b, g) :: zip3 as bs gs := rfl
      unfold keptTriples at hk
      rw [hzip, List.filter_cons] at hk
      by_cases hab : (!(iscloseZero a && iscloseZero b)) = true
      · rw [if_pos hab] at hk; cases hk
      · rw [if_neg hab] at hk
        have ha : iscloseZero a = true := by
          rcases Bool.not_eq_true _ |>.mp hab with h
          rcases Bool.and_eq_true _ _ |>.mp (by simpa using h) with ⟨ha, _⟩
          exact ha
        have has : filterNonzero as = [] := by
          exact ih bs gs (by simpa using h2) (by simpa using hg) hk
        unfold filterNonzero at has ⊢
        rw [List.filter_cons, if_neg (by simp [ha]), has]

/-- If some condition's filtered background vector is empty, the threshold
phase aborts (with the library error of the failing condition reached
first). -/
theorem thresholdPhase_error_of_empty {N : Numerics} {bt : ℚ} {signal : String → List ℚ}
    {c : String} (he : filterNonzero (signal c) = []) :
    ∀ {conds : List String}, c ∈ conds →
      ∃ e, thresholdPhase N bt signal conds = .error e := by
  intro conds
  induction conds with
  | nil => intro h; cases h
  | cons d ds ih =>
    intro hc
    unfold thresholdPhase
    rcases List.mem_cons.mp hc with rfl | hds
    · have hest : thresholdEstimate N bt (signal c) = .error percentileEmptyMsg := by
        unfold thresholdEstimate; rw [he]
      rw [hest]
      exact ⟨percentileEmptyMsg, rfl⟩
    · cases h1 : thresholdEstimate N bt (signal d) with
      | error e => exact ⟨e, rfl⟩
      | ok tp =>
        obtain ⟨e, he2⟩ := ih hds
        rw [he2]
        exact ⟨e, rfl⟩

/-- An aborted threshold phase aborts the whole post-scan pipeline. -/
theorem postScan_error_of_thresholdPhase {N : Numerics} {A : Args}
    {signal : String → List ℚ} {gcs : List ℚ} {rawNames : List String}
    {setOrder : List String → List String} {perTF : String → ℚ → List ℚ}
    {overlaps : List (String × String × ℕ)}
    {distFn : List (String × String × ℕ) → List (List ℚ)} {e : String}
    (h : thresholdPhase N A.boundThreshold signal A.condNames = .error e) :
    postScan N A signal gcs rawNames setOrder perTF overlaps distFn = .error e := by
  unfold postScan
  rw [h]

/-- Membership in a Python slice `l[i::W]`, characterised by indices. -/
theorem mem_sliceStep_iff {α : Type} {l : List α} {x : α} {i W : ℕ} :
    x ∈ sliceStep l i W ↔ ∃ j, l[j]? = some x ∧ i ≤ j ∧ (j - i) % W = 0 := by
  unfold sliceStep
  constructor
  · intro hx
    obtain ⟨p, hp, hsnd⟩ := List.mem_map.mp hx
    obtain ⟨hpe, hcond⟩ := List.mem_filter.mp hp
    have hja : l[p.1]? = some p.2 := List.mem_enum_iff_getElem?.mp hpe
    rw [Bool.and_eq_true, decide_eq_true_eq, decide_eq_true_eq] at hcond
    exact ⟨p.1, by rw [hja, hsnd], hcond.1, hcond.2⟩
  · rintro ⟨j, hj, hij, hmod⟩
    refine List.mem_map.mpr ⟨(j, x), List.mem_filter.mpr ⟨?_, ?_⟩, rfl⟩
    · exact List.mem_enum_iff_getElem?.mpr hj
    · rw [Bool.and_eq_true, decide_eq_true_eq, decide_eq_true_eq]
      exact ⟨hij, hmod⟩

/-- A predicate that holds on exactly one member of a duplicate-free list is
counted exactly once. -/
theorem countP_eq_one_of_unique {l : List ℕ} (hl : l.Nodup) {c : ℕ} (hc : c ∈ l)
    (p : ℕ → Bool) (hp : ∀ i ∈ l, p i = true ↔ i = c) : l.countP p = 1 := by
  induction l with
  | nil => cases hc
  | cons a t ih =>
    obtain ⟨hat, htn⟩ := List.nodup_cons.mp hl
    rcases List.mem_cons.mp hc with rfl | hct
    · have hpa : p c = true := (hp c (List.mem_cons_self c t)).mpr rfl
      have hzero : t.countP p = 0 := by
        rw [List.countP_eq_zero]
        intro i hi hpi
        have : i = c := (hp i (List.mem_cons_of_mem c hi)).mp hpi
        exact hat (this ▸ hi)
      rw [List.countP_cons, hzero, if_pos hpa]
    · have hpa : p a = false := by
        by_contra h
        have : a = c := (hp a (List.mem_cons_self a t)).mp (Bool.not_eq_false _ |>.mp h)
        exact hat (this ▸ hct)
      rw [List.countP_cons, if_neg (by simp [hpa]),
        ih htn hct (fun i hi => hp i (List.mem_cons_of_mem a hi))]

/-- For `i < W`, membership of index `j₀` in slice `i` means `i = j₀ % W`. -/
theorem slice_cond_iff {i j0 W : ℕ} (hiW : i < W) :
    (i ≤ j0 ∧ (j0 - i) % W = 0) ↔ i = j0 % W := by
  constructor
  · rintro ⟨hij, hmod⟩
    obtain ⟨t, ht⟩ := Nat.dvd_of_mod_eq_zero hmod
    have hj0 : j0 = i + W * t := by omega
    rw [hj0, Nat.add_mul_mod_self_left, Nat.mod_eq_of_lt hiW]
  · rintro rfl
    refine ⟨Nat.mod_le j0 W, ?_⟩
    have hd := Nat.div_add_mod j0 W
    have hsub : j0 - j0 % W = W * (j0 / W) := by omega
    rw [hsub, Nat.mul_mod_right]

/-- A list with one suffix can never equal a list with a shorter,
incompatible suffix. -/
theorem append_ne_append_of_rev_take {suf1 suf2 : List Char}
    (hk : suf2.length ≤ suf1.length)
    (h : suf1.reverse.take suf2.length ≠ suf2.reverse) :
    ∀ (x pre : List Char), x ++ suf1 ≠ pre ++ suf2 := by
  intro x pre heq
  apply h
  have h2 : suf1.reverse ++ x.reverse = suf2.reverse ++ pre.reverse := by
    have := congrArg List.reverse heq
    simpa [List.reverse_append] using this
  have h3 := congrArg (List.take suf2.length) h2
  rw [List.take_append_eq_append_take, List.take_append_eq_append_take,
    Nat.sub_eq_zero_of_le (by simpa using hk),
    Nat.sub_eq_zero_of_le (by simp), List.take_zero, List.take_zero,
    List.append_nil, List.append_nil] at h3
  have h4 : List.take suf2.length suf2.reverse = suf2.reverse :=
    List.take_of_length_le (by simp)
  rw [h4] at h3
  exact h3

/-- String version of `append_ne_append_of_rev_take`. -/
theorem string_append_ne {suf1 suf2 : String}
    (hk : suf2.data.length ≤ suf1.data.length)
    (h : suf1.data.reverse.take suf2.data.length ≠ suf2.data.reverse)
    (x pre : String) : x ++ suf1 ≠ pre ++ suf2 := by
  intro heq
  have hd : x.data ++ suf1.data = pre.data ++ suf2.data := by
    have := congrArg String.data heq
    simpa [String.data_append] using this
  exact append_ne_append_of_rev_take hk h x.data pre.data hd

/-- A whole string can never equal something ending in an incompatible
shorter suffix. -/
theorem string_ne_append {s suf : String}
    (hk : suf.data.length ≤ s.data.length)
    (h : s.data.reverse.take suf.data.length ≠ suf.data.reverse)
    (pre : String) : s ≠ pre ++ suf := by
  intro heq
  have hd : ([] : List Char) ++ s.data = pre.data ++ suf.data := by
    have := congrArg String.data heq
    simpa [String.data_append] using this
  exact append_ne_append_of_rev_take hk h [] pre.data hd

/-- Two legitimate `list(set(names))` orders are permutations of each other. -/
theorem validSetOrder_perm {o1 o2 : List String → List String} {l : List String}
    (h1 : validSetOrder o1 l) (h2 : validSetOrder o2 l) : (o1 l).Perm (o2 l) := by
  obtain ⟨hn1, hs1, hs1'⟩ := h1
  obtain ⟨hn2, hs2, hs2'⟩ := h2
  refine (List.perm_ext_iff_of_nodup hn1 hn2).mpr ?_
  intro a
  constructor
  · intro ha; exact hs2' a (hs1 a ha)
  · intro ha; exact hs1' a (hs2 a ha)

/-- Membership in `itertools.combinations(l, 2)` implies membership of both
components in `l`. -/
theorem mem_of_mem_pairCombinations :
    ∀ {l : List String} {c1 c2 : String}, (c1, c2) ∈ pairCombinations l →
      c1 ∈ l ∧ c2 ∈ l := by
  intro l
  induction l with
  | nil => intro c1 c2 h; cases h
  | cons a rest ih =>
    intro c1 c2 h
    unfold pairCombinations at h
    rcases List.mem_append.mp h with h1 | h2
    · obtain ⟨b, hb, heq⟩ := List.mem_map.mp h1
      have h1' : a = c1 := congrArg Prod.fst heq
      have h2' : b = c2 := congrArg Prod.snd heq
      subst h1'; subst h2'
      exact ⟨List.mem_cons_self _ _, List.mem_cons_of_mem _ hb⟩
    · obtain ⟨h1, h2⟩ := ih h2
      exact ⟨List.mem_cons_of_mem _ h1, List.mem_cons_of_mem _ h2⟩

/-! ## Evaluation lemmas for the concrete instantiations -/

theorem iscloseZero_eq_false {v : ℚ} (h : 1 / 100000000 < |v|) : iscloseZero v = false := by
  unfold iscloseZero
  rw [decide_eq_false_iff_not]
  exact not_le.mpr h

theorem iscloseZero_zero : iscloseZero 0 = true := by
  unfold iscloseZero
  rw [decide_eq_true_eq]
  norm_num

theorem filterNonzero_nil : filterNonzero [] = [] := rfl

theorem filterNonzero_cons_keep {v : ℚ} (h : 1 / 100000000 < |v|) (l : List ℚ) :
    filterNonzero (v :: l) = v :: filterNonzero l := by
  unfold filterNonzero
  rw [List.filter_cons, if_pos (by simp [iscloseZero_eq_false h])]

theorem filterNonzero_cons_zero (l : List ℚ) : filterNonzero (0 :: l) = filterNonzero l := by
  unfold filterNonzero
  rw [List.filter_cons, if_neg (by simp [iscloseZero_zero])]

theorem argmaxIdx_single (v : ℚ) : argmaxIdx [v] = 0 := by
  unfold argmaxIdx
  simp [List.enum, List.enumFrom, ite_self]

theorem fittedLogParams_cxNum (v : ℚ) (l : List ℚ) :
    fittedLogParams cxNum (v :: l) = { shape := 1, loc := 0, scale := v } := by
  unfold fittedLogParams chosenGMM selectMinBic1
  simp [cxNum, argmaxIdx_single]

theorem thresholdOf_cxNum (bt v : ℚ) (l : List ℚ) :
    thresholdOf cxNum bt (v :: l) = round5 (1 - bt) := rfl

theorem pseudoCandidate_cxNum (v : ℚ) (l : List ℚ) :
    pseudoCandidate cxNum (v :: l) = v / 2 := by
  unfold pseudoCandidate
  rw [fittedLogParams_cxNum]
  rfl

theorem thresholdEstimate_cxNum (bt v : ℚ) (hv : iscloseZero v = false) :
    thresholdEstimate cxNum bt [v] = .ok (round5 (1 - bt), v / 2) := by
  have hf : filterNonzero [v] = [v] := by
    unfold filterNonzero
    rw [List.filter_cons_of_pos (by simp [hv]), List.filter_nil]
  unfold thresholdEstimate
  rw [hf]
  show Except.ok (thresholdOf cxNum bt [v], pseudoCandidate cxNum [v]) = _
  rw [thresholdOf_cxNum, pseudoCandidate_cxNum]

theorem thresholdPhase_sigC2 (bt : ℚ) :
    thresholdPhase cxNum bt sigC2 [condA, condB]
      = .ok [(round5 (1 - bt), 2), (round5 (1 - bt), 6)] := by
  have h4 : iscloseZero 4 = false := iscloseZero_eq_false (by norm_num)
  have h12 : iscloseZero 12 = false := iscloseZero_eq_false (by norm_num)
  have e1 : thresholdEstimate cxNum bt (sigC2 condA) = .ok (round5 (1 - bt), 2) := by
    rw [show sigC2 condA = [4] from by simp [sigC2]]
    rw [thresholdEstimate_cxNum bt 4 h4]
    norm_num
  have e2 : thresholdEstimate cxNum bt (sigC2 condB) = .ok (round5 (1 - bt), 6) := by
    rw [show sigC2 condB = [12] from by simp [sigC2, condA, condB]]
    rw [thresholdEstimate_cxNum bt 12 h12]
    norm_num
  simp only [thresholdPhase, e1, e2]

theorem comparisonFit_sigC2 (p : ℚ) :
    comparisonFit cxNum p sigC2 [1 / 2] condA condB
      = .ok (fitPairGMM cxNum [((4 + p) / (12 + p), 1 / 2)]) := by
  have h4 : iscloseZero 4 = false := iscloseZero_eq_false (by norm_num)
  have hs1 : sigC2 condA = [4] := by simp [sigC2]
  have hs2 : sigC2 condB = [12] := by simp [sigC2, condA, condB]
  have hpts : pairPoints cxNum p (sigC2 condA) (sigC2 condB) [1 / 2]
      = [((4 + p) / (12 + p), 1 / 2)] := by
    simp [pairPoints, log2fcPoints, keptTriples, zip3, h4, hs1, hs2, cxNum]
  simp only [comparisonFit, hpts]

/-! ## Claim theorems -/

/-- Claim C10: the genome-wide GC fraction is the unweighted arithmetic
mean of the per-chunk GC fractions — each chunk counts once regardless of
how many bases it covers — and the background composition
`[(1-gc)/2, gc/2, gc/2, (1-gc)/2]` sums to 1 with the two GC entries equal
and the two AT entries equal. -/
theorem C10_gc_mean_and_composition (chunkStats : List (ℚ × ℕ)) (h : chunkStats ≠ []) :
    estimateGC chunkStats * (chunkStats.length : ℚ) = (chunkStats.map Prod.fst).sum ∧
    (∀ recount : ℚ × ℕ → ℕ,
      estimateGC (chunkStats.map (fun p => (p.1, recount p))) = estimateGC chunkStats) ∧
    (bgComposition (estimateGC chunkStats)).sum = 1 ∧
    (bgComposition (estimateGC chunkStats)).getD 1 0
      = (bgComposition (estimateGC chunkStats)).getD 2 0 ∧
    (bgComposition (estimateGC chunkStats)).getD 0 0
      = (bgComposition (estimateGC chunkStats)).getD 3 0 := by
  have hlen : ((chunkStats.length : ℚ)) ≠ 0 := by
    have : chunkStats.length ≠ 0 := by
      intro h0
      exact h (List.length_eq_zero.mp h0)
    exact_mod_cast this
  refine ⟨?_, ?_, ?_, rfl, rfl⟩
  · unfold estimateGC listMean
    rw [List.length_map]
    exact div_mul_cancel₀ _ hlen
  · intro recount
    unfold estimateGC
    congr 1
    rw [List.map_map]
    rfl
  · unfold bgComposition
    simp [List.sum_cons]
    ring

/-- Witness for C10 at a concrete chunk list. -/
theorem C10_witness :
    ([(1/2, 100), (1/4, 7)] : List (ℚ × ℕ)) ≠ [] ∧
    estimateGC [(1/2, 100), (1/4, 7)] * (([(1/2, 100), (1/4, 7)] : List (ℚ × ℕ)).length : ℚ)
      = (([(1/2, 100), (1/4, 7)] : List (ℚ × ℕ)).map Prod.fst).sum := by
  have h : ([(1/2, 100), (1/4, 7)] : List (ℚ × ℕ)) ≠ [] := List.cons_ne_nil _ _
  exact ⟨h, (C10_gc_mean_and_composition [(1/2, 100), (1/4, 7)] h).1⟩

/-- Claim C4: the threshold estimator is antitone in `bound_threshold`:
for a fixed background vector, a larger (looser) `bound_threshold` never
increases the derived threshold.  The only property required of the
library's `lognorm.ppf` is that an inverse CDF is monotone in its quantile
argument. -/
theorem C4_threshold_antitone (N : Numerics) (bt1 bt2 : ℚ) (bg : List ℚ)
    (hmono : ∀ p q q', q ≤ q' → N.lognormPpf q p ≤ N.lognormPpf q' p)
    (h12 : bt1 ≤ bt2) :
    thresholdOf N bt2 (filterNonzero bg) ≤ thresholdOf N bt1 (filterNonzero bg) := by
  unfold thresholdOf
  exact round5_mono (hmono _ _ _ (by linarith))

/-- Witness for C4 at a concrete instantiation. -/
theorem C4_witness :
    (1 : ℚ) / 4 ≤ 1 / 2 ∧
    thresholdOf cxNum (1 / 2) (filterNonzero [1, 2])
      ≤ thresholdOf cxNum (1 / 4) (filterNonzero [1, 2]) :=
  ⟨by norm_num,
    C4_threshold_antitone cxNum (1 / 4) (1 / 2) [1, 2]
      (fun _ _ _ h => h) (by norm_num)⟩

/-- Claim C8: the round-robin assignment `names[i::W]` for `i < W`
partitions the (duplicate-free) TF name list: every name lands in exactly
one writer chunk, hence maps to exactly one writer queue. -/
theorem C8_roundrobin_partition (names : List String) (W : ℕ) (hW : 0 < W)
    (hnd : names.Nodup) (name : String) (hmem : name ∈ names) :
    (List.range W).countP (fun i => decide (name ∈ sliceStep names i W)) = 1 := by
  obtain ⟨j0, hj0⟩ := List.mem_iff_getElem?.mp hmem
  have hc : j0 % W ∈ List.range W := List.mem_range.mpr (Nat.mod_lt j0 hW)
  apply countP_eq_one_of_unique (List.nodup_range W) hc
  intro i hi
  rw [decide_eq_true_eq, mem_sliceStep_iff]
  constructor
  · rintro ⟨j, hj, hij, hmod⟩
    have hjlen : j < names.length := by
      by_contra hge
      rw [List.getElem?_eq_none (not_lt.mp hge)] at hj
      cases hj
    have hjj0 : j = j0 := by
      apply List.getElem?_inj hjlen hnd
      rw [hj, hj0]
    subst hjj0
    exact (slice_cond_iff (List.mem_range.mp hi)).mp ⟨hij, hmod⟩
  · rintro rfl
    exact ⟨j0, hj0, (slice_cond_iff (List.mem_range.mp hi)).mpr rfl⟩

/-- Witness for C8 at a concrete name list of three TFs and two writer
units. -/
theorem C8_witness :
    (List.range 2).countP
      (fun i => decide (nameL2 ∈ sliceStep [nameL1, nameL2, cond1] i 2)) = 1 :=
  C8_roundrobin_partition [nameL1, nameL2, cond1] 2 (by norm_num) (by decide)
    nameL2 (by decide)

/-- Claim C7: with exactly one condition there are no comparisons, the
result-table header has only the `total_tfbs`, `<cond>_threshold` and
`<cond>_bound` columns — no column of the form `*_change` or `*_pvalue`
exists — and the distance-matrix step is skipped entirely. -/
theorem C7_single_condition (c : String) (N : Numerics) (sig : String → List ℚ)
    (gcs : List ℚ) (rawNames : List String) (so : List String → List String)
    (perTF : String → ℚ → List ℚ) (ov : List (String × String × ℕ))
    (df : List (String × String × ℕ) → List (List ℚ)) (bt : ℚ) (ps : Option ℚ) :
    pairCombinations [c] = [] ∧
    infoColumns [c] = [colTotal, c ++ colThreshold, c ++ colBound] ∧
    (∀ pre : String,
      colTotal ≠ pre ++ colChange ∧ colTotal ≠ pre ++ colPvalue ∧
      c ++ colThreshold ≠ pre ++ colChange ∧ c ++ colThreshold ≠ pre ++ colPvalue ∧
      c ++ colBound ≠ pre ++ colChange ∧ c ++ colBound ≠ pre ++ colPvalue) ∧
    distOf (postScan N ⟨[c], 1, bt, ps⟩ sig gcs rawNames so perTF ov df) = none := by
  refine ⟨rfl, by simp [infoColumns, pairCombinations], ?_, ?_⟩
  · intro pre
    refine ⟨string_ne_append (by decide) (by decide) pre,
      string_ne_append (by decide) (by decide) pre,
      string_append_ne (by decide) (by decide) c pre,
      string_append_ne (by decide) (by decide) c pre,
      fun h => string_append_ne (by decide) (by decide) pre c h.symm,
      fun h => string_append_ne (by decide) (by decide) pre c h.symm⟩
  · cases h1 : thresholdPhase N bt sig [c] with
    | error e => simp [postScan, distOf, h1]
    | ok tps => simp [postScan, distOf, h1]

/-- Claim C1 (amended), counterexample part: the output threshold is the
5-decimal rounding of the spec's inverse-CDF value, which differs from the
unrounded value whenever — as here — the latter is not a 5-decimal number.
The library inverse CDF is instantiated to return `1/3`. -/
theorem C1_counterexample :
    (thresholdEstimate cxNumThird (2 / 5) [1, 2, 3]).toOption.map Prod.fst
      = some (33333 / 100000) ∧
    specThresholdC1 cxNumThird (2 / 5) [1, 2, 3] = 1 / 3 ∧
    (33333 / 100000 : ℚ) ≠ 1 / 3 := by
  have hf : filterNonzero [1, 2, 3] = [1, 2, 3] := by
    rw [filterNonzero_cons_keep (by norm_num), filterNonzero_cons_keep (by norm_num),
      filterNonzero_cons_keep (by norm_num), filterNonzero_nil]
  have hr : round5 ((1 : ℚ) / 3) = 33333 / 100000 := by
    unfold round5 rne
    norm_num
  have hest : thresholdEstimate cxNumThird (2 / 5) [1, 2, 3]
      = .ok (thresholdOf cxNumThird (2 / 5) [1, 2, 3],
             pseudoCandidate cxNumThird [1, 2, 3]) := by
    unfold thresholdEstimate
    rw [hf]
  refine ⟨?_, rfl, by norm_num⟩
  rw [hest]
  have hth : thresholdOf cxNumThird (2 / 5) [1, 2, 3] = round5 (1 / 3) := rfl
  rw [Except.toOption, Option.map, hth, hr]

/-- Claim C1 (amended): for every condition with a non-empty filtered
background vector, the threshold estimator succeeds and its threshold is
the inverse CDF of the spec's fitted log-normal (shape and scale fixed to
the larger-mean BIC-chosen mixture component, fitted below the 99th
percentile) evaluated at `1 - bound_threshold` and then rounded to 5
decimal places, alongside the half-mode pseudocount candidate. -/
theorem C1_threshold_is_rounded_ppf (N : Numerics) (bt : ℚ) (bg : List ℚ)
    (h : filterNonzero bg ≠ []) :
    thresholdEstimate N bt bg
      = .ok (round5 (specThresholdC1 N bt bg), pseudoCandidate N (filterNonzero bg)) := by
  unfold thresholdEstimate
  cases hf : filterNonzero bg with
  | nil => exact absurd hf h
  | cons v vs =>
    unfold specThresholdC1
    rw [specFittedLognorm_eq, hf]
    rfl

/-- Witness for C1 at a concrete instantiation. -/
theorem C1_witness :
    filterNonzero [1, 2] ≠ [] ∧
    thresholdEstimate cxNum (2 / 5) [1, 2]
      = .ok (round5 (specThresholdC1 cxNum (2 / 5) [1, 2]),
             pseudoCandidate cxNum (filterNonzero [1, 2])) := by
  have hf : filterNonzero [1, 2] = [1, 2] := by
    rw [filterNonzero_cons_keep (by norm_num), filterNonzero_cons_keep (by norm_num),
      filterNonzero_nil]
  have hne : filterNonzero [1, 2] ≠ [] := by rw [hf]; exact List.cons_ne_nil _ _
  exact ⟨hne, C1_threshold_is_rounded_ppf cxNum (2 / 5) [1, 2] hne⟩

/-- Claim C3: the differential null estimator keeps exactly the positions
where not both signals are near zero, computes `log2((a+pseudo)/(b+pseudo))`
paired with the aligned GC content, and returns the fitted mixture whose
component count over 1..9 attains the lowest BIC. -/
theorem C3_diffnull_min_bic (N : Numerics) (pseudo : ℚ) (sig : String → List ℚ)
    (gcs : List ℚ) (c1 c2 : String)
    (h : pairPoints N pseudo (sig c1) (sig c2) gcs ≠ []) :
    comparisonFit N pseudo sig gcs c1 c2
      = .ok (fitPairGMM N (pairPoints N pseudo (sig c1) (sig c2) gcs)) ∧
    (∃ k ∈ componentRange,
      fitPairGMM N (pairPoints N pseudo (sig c1) (sig c2) gcs)
        = N.gmm2Fit k (pairPoints N pseudo (sig c1) (sig c2) gcs)) ∧
    (∀ m ∈ componentRange,
      N.gmm2Bic (fitPairGMM N (pairPoints N pseudo (sig c1) (sig c2) gcs))
          (pairPoints N pseudo (sig c1) (sig c2) gcs)
        ≤ N.gmm2Bic (N.gmm2Fit m (pairPoints N pseudo (sig c1) (sig c2) gcs))
            (pairPoints N pseudo (sig c1) (sig c2) gcs)) := by
  refine ⟨?_, ?_, ?_⟩
  · unfold comparisonFit
    cases hp : pairPoints N pseudo (sig c1) (sig c2) gcs with
    | nil => exact absurd hp h
    | cons p ps => rfl
  · rcases selectMinBic1_mem
        (fun n => N.gmm2Fit n (pairPoints N pseudo (sig c1) (sig c2) gcs))
        (fun g => N.gmm2Bic g (pairPoints N pseudo (sig c1) (sig c2) gcs))
        1 [2, 3, 4, 5, 6, 7, 8, 9] with h1 | ⟨k, hk, h2⟩
    · exact ⟨1, by decide, h1⟩
    · refine ⟨k, ?_, h2⟩
      unfold componentRange
      exact List.mem_cons_of_mem 1 hk
  · intro m hm
    unfold componentRange at hm
    unfold fitPairGMM
    rcases List.mem_cons.mp hm with rfl | hm2
    · exact selectMinBic1_le_seed
        (fun n => N.gmm2Fit n (pairPoints N pseudo (sig c1) (sig c2) gcs))
        (fun g => N.gmm2Bic g (pairPoints N pseudo (sig c1) (sig c2) gcs))
        1 [2, 3, 4, 5, 6, 7, 8, 9]
    · exact selectMinBic1_le
        (fun n => N.gmm2Fit n (pairPoints N pseudo (sig c1) (sig c2) gcs))
        (fun g => N.gmm2Bic g (pairPoints N pseudo (sig c1) (sig c2) gcs))
        1 [2, 3, 4, 5, 6, 7, 8, 9] m hm2

/-- Witness for C3 at a concrete pair of conditions with background `[4]`
and `[12]` and GC vector `[1/2]`. -/
theorem C3_witness :
    pairPoints cxNum 0 (sigC2 condA) (sigC2 condB) [1 / 2] ≠ [] ∧
    comparisonFit cxNum 0 sigC2 [1 / 2] condA condB
      = .ok (fitPairGMM cxNum (pairPoints cxNum 0 (sigC2 condA) (sigC2 condB) [1 / 2])) := by
  have h4 : iscloseZero 4 = false := iscloseZero_eq_false (by norm_num)
  have hs1 : sigC2 condA = [4] := by simp [sigC2]
  have hs2 : sigC2 condB = [12] := by simp [sigC2, condA, condB]
  have hne : pairPoints cxNum 0 (sigC2 condA) (sigC2 condB) [1 / 2] ≠ [] := by
    simp [pairPoints, log2fcPoints, keptTriples, hs1, hs2, zip3, h4]
  exact ⟨hne, (C3_diffnull_min_bic cxNum 0 sigC2 [1 / 2] condA condB hne).1⟩

/-- Claim C2 is a code bug: with `--pseudo` unset and two conditions whose
pseudocount candidates are `2` and `6`, the pipeline resolves the final
pseudocount to `6` — the LAST condition's candidate, because line 501
computes `np.mean(pseudo)` over the leftover loop scalar instead of
`np.mean(pseudos)` over the collected list — while the spec's mean of all
candidates is `4`. -/
theorem C2_pseudocount_last_not_mean :
    (thresholdPhase cxNum (2 / 5) sigC2 [condA, condB]).toOption.map
        (fun l => l.map Prod.snd) = some [2, 6] ∧
    pseudoOf (postScan cxNum ⟨[condA, condB], 2, 2 / 5, none⟩ sigC2 [1 / 2] []
        ordFwd perTFTrivial [] distTrivial) = some 6 ∧
    codePseudo none [2, 6] = 6 ∧
    specPseudo none [2, 6] = 4 ∧
    (6 : ℚ) ≠ 4 := by
  have hphase := thresholdPhase_sigC2 (2 / 5)
  have hpairs : pairCombinations [condA, condB] = [(condA, condB)] := rfl
  have hcf := comparisonFit_sigC2 6
  refine ⟨?_, ?_, rfl, by norm_num [specPseudo, listMean], by norm_num⟩
  · rw [hphase]
    rfl
  · simp only [postScan, hphase, hpairs]
    have hps : codePseudo none
        (([(round5 (1 - 2 / 5), 2), (round5 (1 - 2 / 5), 6)]).map
          (Prod.snd (α := ℚ))) = 6 := rfl
    simp only [hps]
    simp only [show (1 : ℕ) < 2 from by norm_num, if_true]
    simp only [comparisonPhase, hcf]
    rfl

/-- Claim C5, counterexample: a pair of conditions whose background signals
are all-zero keeps zero positions, and the run does abort — but inside the
threshold phase with the bare numpy error, which is not the
condition-naming message of line 527 and does not mention either condition
(it contains no character `'1'`, unlike the name of the first condition). -/
theorem C5_counterexample :
    keptTriples (sigZero cond1) (sigZero cond2) [1 / 2, 1 / 2] = [] ∧
    postScan cxNum ⟨[cond1, cond2], 2, 2 / 5, none⟩ sigZero [1 / 2, 1 / 2] []
        ordFwd perTFTrivial [] distTrivial = .error percentileEmptyMsg ∧
    percentileEmptyMsg ≠ pairErrorMsg cond1 cond2 ∧
    percentileEmptyMsg.data.contains (Char.ofNat 49) = false ∧
    cond1.data.contains (Char.ofNat 49) = true := by
  have hfz : filterNonzero [0, 0] = [] := by
    rw [filterNonzero_cons_zero, filterNonzero_cons_zero, filterNonzero_nil]
  have hest : thresholdEstimate cxNum (2 / 5) (sigZero cond1) = .error percentileEmptyMsg := by
    unfold thresholdEstimate
    rw [show sigZero cond1 = [0, 0] from rfl, hfz]
  have hph : thresholdPhase cxNum (2 / 5) sigZero [cond1, cond2] = .error percentileEmptyMsg := by
    unfold thresholdPhase
    rw [hest]
  refine ⟨?_, ?_, by decide, by decide, by decide⟩
  · simp [keptTriples, zip3, sigZero, iscloseZero_zero]
  · exact postScan_error_of_thresholdPhase hph

/-- Claim C5 (amended): if a condition pair keeps zero background
positions, then (the aligned vectors being of equal length) both conditions
are entirely near-zero, so the run still aborts before any per-TF
aggregation — but already in the threshold phase; the comparison-phase exit
that names both conditions would be produced only if that phase were
reached in isolation. -/
theorem C5_pair_zero_aborts (N : Numerics) (A : Args) (sig : String → List ℚ)
    (gcs : List ℚ) (rawNames : List String) (so : List String → List String)
    (perTF : String → ℚ → List ℚ) (ov : List (String × String × ℕ))
    (df : List (String × String × ℕ) → List (List ℚ)) (c1 c2 : String) (p : ℚ)
    (hmem : (c1, c2) ∈ pairCombinations A.condNames)
    (hl1 : (sig c1).length = gcs.length) (hl2 : (sig c2).length = gcs.length)
    (hkept : keptTriples (sig c1) (sig c2) gcs = []) :
    (postScan N A sig gcs rawNames so perTF ov df).toOption = none ∧
    comparisonFit N p sig gcs c1 c2 = .error (pairErrorMsg c1 c2) := by
  have hc1 : c1 ∈ A.condNames := (mem_of_mem_pairCombinations hmem).1
  have hempty : filterNonzero (sig c1) = [] :=
    filterNonzero_eq_nil_of_kept_nil (sig c1) (sig c2) gcs
      (by rw [hl1, ← hl2]) (le_of_eq hl1) hkept
  obtain ⟨e, he⟩ : ∃ e, thresholdPhase N A.boundThreshold sig A.condNames = .error e :=
    thresholdPhase_error_of_empty hempty hc1
  constructor
  · rw [postScan_error_of_thresholdPhase he]
    rfl
  · unfold comparisonFit
    have hpts : pairPoints N p (sig c1) (sig c2) gcs = [] := by
      unfold pairPoints log2fcPoints
      rw [hkept]
      rfl
    rw [hpts]

/-- Witness for the amended C5 at a concrete all-zero pair. -/
theorem C5_witness :
    (cond1, cond2) ∈ pairCombinations [cond1, cond2] ∧
    keptTriples (sigZero cond1) (sigZero cond2) [1 / 2, 1 / 2] = [] ∧
    (postScan cxNum ⟨[cond1, cond2], 2, 2 / 5, none⟩ sigZero [1 / 2, 1 / 2] []
        ordFwd perTFTrivial [] distTrivial).toOption = none ∧
    comparisonFit cxNum 1 sigZero [1 / 2, 1 / 2] cond1 cond2
      = .error (pairErrorMsg cond1 cond2) := by
  have hmem : (cond1, cond2) ∈ pairCombinations [cond1, cond2] := by decide
  have hkept : keptTriples (sigZero cond1) (sigZero cond2) [1 / 2, 1 / 2] = [] := by
    simp [keptTriples, zip3, sigZero, iscloseZero_zero]
  have h := C5_pair_zero_aborts cxNum ⟨[cond1, cond2], 2, 2 / 5, none⟩ sigZero
    [1 / 2, 1 / 2] [] ordFwd perTFTrivial [] distTrivial cond1 cond2 1
    hmem rfl rfl hkept
  exact ⟨hmem, hkept, h.1, h.2⟩

/-- Claim C6, counterexample: a condition whose background is entirely
zero-valued makes the run abort, but with the bare numpy exception — not a
descriptive error naming the condition: the message does not even contain
the character `'A'` of the condition's name `condA`. -/
theorem C6_counterexample :
    filterNonzero (sigZero condZ) = [] ∧
    postScan cxNum ⟨[condZ], 1, 2 / 5, none⟩ sigZero [] [] ordFwd perTFTrivial []
        distTrivial = .error percentileEmptyMsg ∧
    percentileEmptyMsg.data.contains (Char.ofNat 65) = false ∧
    condZ.data.contains (Char.ofNat 65) = true := by
  have hfz : filterNonzero [0, 0] = [] := by
    rw [filterNonzero_cons_zero, filterNonzero_cons_zero, filterNonzero_nil]
  have hest : thresholdEstimate cxNum (2 / 5) (sigZero condZ) = .error percentileEmptyMsg := by
    unfold thresholdEstimate
    rw [show sigZero condZ = [0, 0] from rfl, hfz]
  have hph : thresholdPhase cxNum (2 / 5) sigZero [condZ] = .error percentileEmptyMsg := by
    unfold thresholdPhase
    rw [hest]
  exact ⟨hfz, postScan_error_of_thresholdPhase hph, by decide, by decide⟩

/-- Claim C6 (amended): when a condition's background vector is empty after
excluding near-zero values, the run aborts before any per-TF aggregation —
but via the unhandled numpy exception of `np.percentile` on an empty array,
not via a descriptive error naming the condition. -/
theorem C6_empty_background_aborts (N : Numerics) (A : Args) (sig : String → List ℚ)
    (gcs : List ℚ) (rawNames : List String) (so : List String → List String)
    (perTF : String → ℚ → List ℚ) (ov : List (String × String × ℕ))
    (df : List (String × String × ℕ) → List (List ℚ)) (c : String)
    (hc : c ∈ A.condNames) (hempty : filterNonzero (sig c) = []) :
    (postScan N A sig gcs rawNames so perTF ov df).toOption = none ∧
    thresholdEstimate N A.boundThreshold (sig c) = .error percentileEmptyMsg := by
  obtain ⟨e, he⟩ : ∃ e, thresholdPhase N A.boundThreshold sig A.condNames = .error e :=
    thresholdPhase_error_of_empty hempty hc
  constructor
  · rw [postScan_error_of_thresholdPhase he]
    rfl
  · unfold thresholdEstimate
    rw [hempty]

/-- Witness for the amended C6 at a concrete all-zero condition. -/
theorem C6_witness :
    condZ ∈ [condZ] ∧ filterNonzero (sigZero condZ) = [] ∧
    (postScan cxNum ⟨[condZ], 1, 2 / 5, none⟩ sigZero [] [] ordFwd perTFTrivial []
        distTrivial).toOption = none := by
  have hfz : filterNonzero (sigZero condZ) = [] := by
    rw [show sigZero condZ = [0, 0] from rfl, filterNonzero_cons_zero,
      filterNonzero_cons_zero, filterNonzero_nil]
  have h := C6_empty_background_aborts cxNum ⟨[condZ], 1, 2 / 5, none⟩ sigZero
    [] [] ordFwd perTFTrivial [] distTrivial condZ (List.mem_cons_self _ _) hfz
  exact ⟨List.mem_cons_self _ _, hfz, h.1⟩

theorem postScan_sigC2_ok (rawNames : List String) (so : List String → List String) :
    postScan cxNum ⟨[condA, condB], 2, 2 / 5, none⟩ sigC2 [1 / 2] rawNames so
        perTFTrivial [] distTrivial
      = .ok { thresholds := [(condA, round5 (1 - 2 / 5)), (condB, round5 (1 - 2 / 5))]
              pseudo := 6
              table := (so rawNames).map (fun n => (n, perTFTrivial n 6))
              distance := some [] } := by
  have hphase := thresholdPhase_sigC2 (2 / 5)
  have hpairs : pairCombinations [condA, condB] = [(condA, condB)] := rfl
  have hcf := comparisonFit_sigC2 6
  simp only [postScan, hphase, hpairs]
  have hps : codePseudo none
      (([(round5 (1 - 2 / 5), 2), (round5 (1 - 2 / 5), 6)]).map
        (Prod.snd (α := ℚ))) = 6 := rfl
  simp only [hps]
  simp only [show (1 : ℕ) < 2 from by norm_num, if_true]
  simp only [comparisonPhase, hcf]
  rfl

/-- Claim C9, counterexample: two runs on identical inputs (and the same
deterministic mixture fitting) but with two legitimate iteration orders of
the Python `set` from which the TF-name list is rebuilt produce result
tables whose row order differs, so the tables are not identical. -/
theorem C9_counterexample :
    validSetOrder ordFwd [nameL1, nameL2] ∧
    validSetOrder ordRev [nameL1, nameL2] ∧
    tableOf (postScan cxNum ⟨[condA, condB], 2, 2 / 5, none⟩ sigC2 [1 / 2]
        [nameL1, nameL2] ordFwd perTFTrivial [] distTrivial)
      = some [(nameL1, []), (nameL2, [])] ∧
    tableOf (postScan cxNum ⟨[condA, condB], 2, 2 / 5, none⟩ sigC2 [1 / 2]
        [nameL1, nameL2] ordRev perTFTrivial [] distTrivial)
      = some [(nameL2, []), (nameL1, [])] ∧
    ([(nameL1, ([] : List ℚ)), (nameL2, [])] : List (String × List ℚ))
      ≠ [(nameL2, []), (nameL1, [])] := by
  refine ⟨⟨by decide, by decide, by decide⟩, ⟨by decide, by decide, by decide⟩,
    ?_, ?_, by decide⟩
  · rw [postScan_sigC2_ok [nameL1, nameL2] ordFwd]
    rfl
  · rw [postScan_sigC2_ok [nameL1, nameL2] ordRev]
    rfl

/-- Claim C9 (amended): two runs on identical inputs with the fixed
mixture-fitting seed produce identical thresholds, identical pseudocounts
and identical distance output, and result tables with identical rows — but
only up to row order, because the TF-name list ordering comes from an
unordered Python `set` whose iteration order is not part of the fixed
seed. -/
theorem C9_deterministic_up_to_row_order (N : Numerics) (A : Args)
    (sig : String → List ℚ) (gcs : List ℚ) (rawNames : List String)
    (o1 o2 : List String → List String) (perTF : String → ℚ → List ℚ)
    (ov : List (String × String × ℕ))
    (df : List (String × String × ℕ) → List (List ℚ))
    (h1 : validSetOrder o1 rawNames) (h2 : validSetOrder o2 rawNames) :
    pseudoOf (postScan N A sig gcs rawNames o1 perTF ov df)
      = pseudoOf (postScan N A sig gcs rawNames o2 perTF ov df) ∧
    thresholdsOf (postScan N A sig gcs rawNames o1 perTF ov df)
      = thresholdsOf (postScan N A sig gcs rawNames o2 perTF ov df) ∧
    distOf (postScan N A sig gcs rawNames o1 perTF ov df)
      = distOf (postScan N A sig gcs rawNames o2 perTF ov df) ∧
    tablesMatch (postScan N A sig gcs rawNames o1 perTF ov df)
      (postScan N A sig gcs rawNames o2 perTF ov df) := by
  have hperm := validSetOrder_perm h1 h2
  cases ht : thresholdPhase N A.boundThreshold sig A.condNames with
  | error e =>
    simp only [postScan, ht]
    exact ⟨trivial, trivial, trivial, rfl⟩
  | ok tps =>
    simp only [postScan, ht]
    cases hcp : (if 1 < A.signalsLen then
        comparisonPhase N (codePseudo A.pseudo (tps.map Prod.snd)) sig gcs
          (pairCombinations A.condNames)
      else .ok []) with
    | error e => exact ⟨rfl, rfl, rfl, rfl⟩
    | ok gs => exact ⟨rfl, rfl, rfl, hperm.map _⟩

/-- Witness for the amended C9 at a concrete two-condition run and two
concrete set orders. -/
theorem C9_witness :
    validSetOrder ordFwd [nameL1, nameL2] ∧
    validSetOrder ordRev [nameL1, nameL2] ∧
    pseudoOf (postScan cxNum ⟨[condA, condB], 2, 2 / 5, none⟩ sigC2 [1 / 2]
        [nameL1, nameL2] ordFwd perTFTrivial [] distTrivial)
      = pseudoOf (postScan cxNum ⟨[condA, condB], 2, 2 / 5, none⟩ sigC2 [1 / 2]
        [nameL1, nameL2] ordRev perTFTrivial [] distTrivial) ∧
    tablesMatch (postScan cxNum ⟨[condA, condB], 2, 2 / 5, none⟩ sigC2 [1 / 2]
        [nameL1, nameL2] ordFwd perTFTrivial [] distTrivial)
      (postScan cxNum ⟨[condA, condB], 2, 2 / 5, none⟩ sigC2 [1 / 2]
        [nameL1, nameL2] ordRev perTFTrivial [] distTrivial) := by
  have h1 : validSetOrder ordFwd [nameL1, nameL2] := ⟨by decide, by decide, by decide⟩
  have h2 : validSetOrder ordRev [nameL1, nameL2] := ⟨by decide, by decide, by decide⟩
  have h := C9_deterministic_up_to_row_order cxNum ⟨[condA, condB], 2, 2 / 5, none⟩
    sigC2 [1 / 2] [nameL1, nameL2] ordFwd ordRev perTFTrivial [] distTrivial h1 h2
  exact ⟨h1, h2, h.1, h.2.2.2⟩

end BINDetect
